import Mathlib

/-!
Verification of the reliable messaging transport layer of the goframe
repository (package `rabbit`, with the retry driver from package `safe`).

The Go source is shallowly embedded: every Go function that a claim is
about becomes a pure Lean function over an explicit environment that
supplies the outcomes of the external broker operations (dial, channel
open, queue declare, send, confirmation).  Stateful and concurrent code
(the per-slot publish protocol) is embedded as an executable labelled
transition system.  Wall-clock time in the retry driver is discrete
(seconds); a sleep advances the clock by the slept amount and an
invocation of the retried function advances it by that invocation's
duration.
-/

/-- A Go `error` value.  `mk` is an ordinary error carrying its message;
`panicError` is the `PanicError` type of the `safe` package. -/
inductive Err where
  | mk (msg : String)
  | panicError (msg : String)
deriving DecidableEq, Repr

/-- `Error()` of the modelled error values; `PanicError.Error` prepends
"panic: " to the message, as in the source. -/
def Err.errorString : Err → String
  | .mk m => m
  | .panicError m => "panic: " ++ m

/-- A Go panic value as discriminated by `recoverToError` in the `safe`
package: an `error`, a `string`, or anything else. -/
inductive PanicVal where
  | errVal (e : Err)
  | strVal (s : String)
  | otherVal
deriving DecidableEq, Repr

/-- `recoverToError` from the `safe` package: an error panic value is
returned as-is, a string becomes a `PanicError`, anything else becomes
an "unknown panic" `PanicError`. -/
def recoverToError : PanicVal → Err
  | .errVal e => e
  | .strVal s => .panicError s
  | .otherVal => .panicError "unknown panic"

/-- Outcome of one invocation of the function wrapped by `Try`:
it returns nil, returns an error, or panics with some value. -/
inductive FnOutcome where
  | ok
  | err (e : Err)
  | panic (v : PanicVal)
deriving DecidableEq, Repr

/-- A retried function is modelled by the outcome and the duration
(in whole seconds) of its k-th invocation, k counted from 0. -/
def FnSchedule : Type := Nat → FnOutcome × Nat

/-- The error value held by `err` after the k-th invocation of `fn`
inside `Try`: `none` models `err == nil`; a panic has been recovered by
the deferred `recover` and converted through `recoverToError`. -/
def tryStepErr (fn : FnSchedule) (k : Nat) : Option Err :=
  match (fn k).1 with
  | .ok => none
  | .err e => some e
  | .panic v => some (recoverToError v)

/-- What a run of `Try` did: the returned value (`none` is Go `nil`),
how many times `fn` was invoked, the backoff sleeps performed in order,
and the elapsed time (seconds) when `Try` returned. -/
structure TryResult where
  result : Option Err
  invocations : Nat
  sleeps : List Nat
  elapsed : Nat
deriving DecidableEq, Repr

/-- The retry loop of `safe.Try`.  `attempt` is the number of
invocations already performed (the Go `attempt` counter is this plus
one), `elapsed` the time since `start`.  Each iteration invokes `fn`,
recovers a panic into an error, returns nil on success, returns the
last error once `time.Since(start) >= maxDuration`, and otherwise
sleeps `min(attempt seconds, 30 seconds)` and retries. -/
def tryLoop (fn : FnSchedule) (maxDuration : Nat) :
    Nat → Nat → Nat → TryResult
  | 0, attempt, elapsed => ⟨none, attempt, [], elapsed⟩
  | fuel + 1, attempt, elapsed =>
    let elapsed1 := elapsed + (fn attempt).2
    match tryStepErr fn attempt with
    | none => ⟨none, attempt + 1, [], elapsed1⟩
    | some e =>
      if maxDuration ≤ elapsed1 then
        ⟨some e, attempt + 1, [], elapsed1⟩
      else
        let backoff := min (attempt + 1) 30
        let r := tryLoop fn maxDuration fuel (attempt + 1) (elapsed1 + backoff)
        ⟨r.result, r.invocations, backoff :: r.sleeps, r.elapsed⟩

/-- `safe.Try(fn, maxDuration)`: run the retry loop from attempt 0 at
elapsed time 0.  The loop's recursion is bounded structurally by the
fuel `maxDuration + 1`; every backoff sleep lasts at least one second,
so elapsed time grows by at least one per iteration and this fuel is
never exhausted (`tryLoop_spec` below is proved under the
corresponding invariant `maxDuration < elapsed + fuel`). -/
def Try (fn : FnSchedule) (maxDuration : Nat) : TryResult :=
  tryLoop fn maxDuration (maxDuration + 1) 0 0

/-! ## The publish path (`Connection.Publish` in the rabbit package) -/

/-- One observable step of `Connection.Publish`, in program order:
advance the channel ring under the pool lock, lock the selected slot,
open a transient channel on the connection, declare the queue on it,
`wg.Add(1)`, send, `wg.Done()` (only on the send-error path), wait on
the completion counter, close the transient channel (deferred), unlock
the slot (deferred). -/
inductive PubAction where
  | ringAdvance
  | slotLock
  | openChannel
  | declareQueue (durable autoDelete exclusive : Bool)
  | counterIncr
  | send
  | counterDecr
  | waitConfirm
  | closeChannel
  | slotUnlock
deriving DecidableEq, Repr

/-- Outcomes of the fallible external operations performed by one
`Connection.Publish` call: whether the selected slot is marked closed,
and the results of `conn.Channel()`, `ch.QueueDeclare(...)` and
`cl.chn.Publish(...)` (`none` is success). -/
structure PubEnv where
  closed : Bool
  chanErr : Option Err
  declErr : Option Err
  sendErr : Option Err
deriving DecidableEq, Repr

/-- The error returned when the slot is marked closed. -/
def errChannelClosed : Err := .mk "channel closed"

/-- `Connection.Publish`, embedded as the ordered list of actions it
performs together with its returned error (`none` is Go `nil`).  The
order follows the source: ring advance, slot lock, transient channel
open, queue declare (durable, no auto-delete, non-exclusive),
`wg.Add(1)`, send, then either `wg.Done()` and return of the send
error, or `wg.Wait()`; the deferred `ch.Close()` and `lock.Unlock()`
run last, in that order. -/
def Publish (env : PubEnv) : List PubAction × Option Err :=
  if env.closed then
    ([.ringAdvance, .slotLock, .slotUnlock], some errChannelClosed)
  else
    match env.chanErr with
    | some e => ([.ringAdvance, .slotLock, .openChannel, .slotUnlock], some e)
    | none =>
      match env.declErr with
      | some e =>
        ([.ringAdvance, .slotLock, .openChannel, .declareQueue true false false,
          .closeChannel, .slotUnlock], some e)
      | none =>
        match env.sendErr with
        | some e =>
          ([.ringAdvance, .slotLock, .openChannel, .declareQueue true false false,
            .counterIncr, .send, .counterDecr, .closeChannel, .slotUnlock], some e)
        | none =>
          ([.ringAdvance, .slotLock, .openChannel, .declareQueue true false false,
            .counterIncr, .send, .waitConfirm, .closeChannel, .slotUnlock], none)

/-- Whether an action is a queue declaration. -/
def isDeclare : PubAction → Bool
  | .declareQueue _ _ _ => true
  | _ => false

/-- The ordering asserted by the specification for `Publish`: the queue
declaration happens strictly before the ring advance and before the
slot lock acquisition (declare is step 1, advance step 2, lock
step 3).  `true` also when one of the steps does not occur. -/
def declareBeforeRingAndLock (env : PubEnv) : Bool :=
  let acts := (Publish env).1
  match acts.findIdx? isDeclare, acts.findIdx? (· = PubAction.ringAdvance),
        acts.findIdx? (· = PubAction.slotLock) with
  | some d, some r, some l => decide (d < r) && decide (d < l)
  | _, _, _ => true

/-! ## The consume loop (`Connection.Consume` in the rabbit package) -/

/-- One wakeup of the `select` in `Consume`'s receive loop: the context
was cancelled, the delivery channel was closed (`ok == false`), or a
message body was delivered. -/
inductive ConsumeEv where
  | cancelled
  | chanClosed
  | msg (body : String)
deriving DecidableEq, Repr

/-- A consumer-side acknowledgement action:
`msg.Ack(multiple)` or `msg.Nack(multiple, requeue)`. -/
inductive AckAct where
  | ack (body : String) (multiple : Bool)
  | nack (body : String) (multiple requeue : Bool)
deriving DecidableEq, Repr

/-- The error returned when the delivery channel closes. -/
def errConsumeClosed : Err := .mk "channel closed"

/-- The receive loop of `Connection.Consume`: for each delivered
message invoke the handler, `Ack(false)` on nil and `Nack(false, true)`
on error, and keep looping; return nil on cancellation and an error
when the delivery channel closes.  The result's second component is
`none` while the loop is still blocked (event list exhausted), and
`some r` when the loop returned `r` (`r = none` is a nil return). -/
def consumeLoop (handler : String → Option Err) :
    List ConsumeEv → List AckAct × Option (Option Err)
  | [] => ([], none)
  | .cancelled :: _ => ([], some none)
  | .chanClosed :: _ => ([], some (some errConsumeClosed))
  | .msg b :: rest =>
    let act : AckAct :=
      match handler b with
      | some _ => .nack b false true
      | none => .ack b false
    let r := consumeLoop handler rest
    (act :: r.1, r.2)

/-- The message bodies the loop actually processes: those delivered
before the first cancellation or channel closure. -/
def processedBodies : List ConsumeEv → List String
  | [] => []
  | .cancelled :: _ => []
  | .chanClosed :: _ => []
  | .msg b :: rest => b :: processedBodies rest

/-- Specification-level description of the acknowledgement actions:
one per processed message, a requeueing nack when the handler errs and
a single ack when it succeeds.  Stated from the specification's words,
to be compared with `consumeLoop`. -/
def consumeActsSpec (handler : String → Option Err) (evs : List ConsumeEv) :
    List AckAct :=
  (processedBodies evs).map fun b =>
    match handler b with
    | some _ => .nack b false true
    | none => .ack b false

/-! ## Health check, connection registry, initialization -/

/-- `ignite.Health`: a non-blocking receive from the shared
`notifyClose` buffer.  The buffer is a FIFO of `*amqp.Error` values
(`none` models a nil error value).  If a value is available it is
consumed; a non-nil value yields an error, otherwise the check returns
nil.  The second component is the buffer after the call. -/
def Health (buffer : List (Option String)) :
    Option Err × List (Option String) :=
  match buffer with
  | [] => (none, [])
  | v :: rest =>
    match v with
    | some msg => (some (.mk ("RabbitMQ error happen : " ++ msg)), rest)
    | none => (none, rest)

/-- The `Connection` wrapper returned by `GetConnection`. -/
structure Connection where
  name : String
deriving DecidableEq, Repr

/-- The error message of `GetConnection` for an unknown name (the
source quotes the name; the quotes are omitted here). -/
def errConnNotFound (name : String) : Err :=
  .mk ("rabbitmq connection " ++ name ++ " not found")

/-- `GetConnection`: look the name up in the global `connRng` registry,
modelled by the list of registered names; return a wrapper on hit and
a not-found error on miss. -/
def GetConnection (name : String) (connRegistry : List String) :
    Except Err Connection :=
  if name ∈ connRegistry then .ok ⟨name⟩ else .error (errConnNotFound name)

/-- A registered broker configuration (`rabbitExpected` in the
source). -/
structure RabbitExpected where
  containerName : String
  host : String
  port : Nat
  user : String
  password : String
  vHost : String
deriving DecidableEq, Repr

/-- One observable step of `initializeConnection`, in program order.
`registerCloseNotify` is the registration of the shared `notifyClose`
buffer with a connection via `conn.NotifyClose`; the constructor exists
so that the property can be stated, the embedded code never emits it
because the source contains no such call. -/
inductive InitAction where
  | insertConnRegistry (name : String)
  | dial (j : Nat)
  | registerCloseNotify (j : Nat)
  | openExchChannel
  | declareExchange
  | insertChanRegistry (name : String)
  | openPublishChannel (j : Nat)
  | enableConfirm (j : Nat)
  | notifyPublish (j : Nat)
  | startListener (j : Nat)
deriving DecidableEq, Repr

/-- Outcomes of the external operations of one `initializeConnection`
call: the `viper` configuration values (clamped to 1 inside the
function, 100 for the confirm buffer) and the per-index results of
dialing, channel opening, exchange declaration, publish-channel
opening and confirm-mode enabling. -/
structure InitEnv where
  connectionNum : Nat
  publishNum : Nat
  confirmLen : Nat
  dialErr : Nat → Option Err
  chanErr : Option Err
  exchErr : Option Err
  pubChanErr : Nat → Option Err
  confirmModeErr : Nat → Option Err

/-- The dial loop of `initializeConnection`: dial each connection in
turn, aborting with the first dial error. -/
def dialSeq (dialErr : Nat → Option Err) : List Nat → List InitAction × Option Err
  | [] => ([], none)
  | j :: rest =>
    match dialErr j with
    | some e => ([.dial j], some e)
    | none =>
      let r := dialSeq dialErr rest
      (.dial j :: r.1, r.2)

/-- The publish-channel loop of `initializeConnection`: for each slot,
open a channel on the next pooled connection, enable confirm mode,
register the confirmation buffer via `NotifyPublish` and start the
`publishConfirm` listener task; abort with the first error. -/
def pubChanSeq (env : InitEnv) : List Nat → List InitAction × Option Err
  | [] => ([], none)
  | j :: rest =>
    match env.pubChanErr j with
    | some e => ([.openPublishChannel j], some e)
    | none =>
      match env.confirmModeErr j with
      | some e => ([.openPublishChannel j, .enableConfirm j], some e)
      | none =>
        let r := pubChanSeq env rest
        ([.openPublishChannel j, .enableConfirm j, .notifyPublish j,
          .startListener j] ++ r.1, r.2)

/-- `initializeConnection`, embedded as its ordered action list and
returned error.  The connection-registry insertion
(`connRng[name] = ring.New(cnt)`) happens first, before any dial; then
the dial loop, the exchange declaration on a transient channel, the
channel-registry insertion and the publish-channel loop. -/
def initializeConnection (cfg : RabbitExpected) (env : InitEnv) :
    List InitAction × Option Err :=
  let cnt := if env.connectionNum < 1 then 1 else env.connectionNum
  let d := dialSeq env.dialErr (List.range cnt)
  let tail : List InitAction × Option Err :=
    match d.2 with
    | some e => (d.1, some e)
    | none =>
      match env.chanErr with
      | some e => (d.1 ++ [.openExchChannel], some e)
      | none =>
        match env.exchErr with
        | some e => (d.1 ++ [.openExchChannel, .declareExchange], some e)
        | none =>
          let publishNum := if env.publishNum < 1 then 1 else env.publishNum
          let p := pubChanSeq env (List.range publishNum)
          (d.1 ++
            [.openExchChannel, .declareExchange, .insertChanRegistry cfg.containerName]
            ++ p.1, p.2)
  (InitAction.insertConnRegistry cfg.containerName :: tail.1, tail.2)

/-- What one run of `rabbit.Initialize` did: which brokers had
`initializeConnection` invoked for them (in order), the final contents
of the global `connRng` registry, whether the health checker got
registered with `healthz`, and the error logged on abort (`none` when
every broker initialized). -/
structure InitTrace where
  initCalls : List String
  connRegistry : List String
  healthRegistered : Bool
  loggedError : Option Err
deriving DecidableEq, Repr

/-- The body of `rabbit.Initialize` (inside `once.Do`): call
`initializeConnection` for each registered broker in order; on the
first error, log it and return without registering the health checker;
otherwise register `ignite` with `healthz`.  Errors are logged, never
returned — the Go function has no return value. -/
def initLoop (envf : String → InitEnv) : List RabbitExpected → InitTrace
  | [] => ⟨[], [], true, none⟩
  | cfg :: rest =>
    let r := initializeConnection cfg (envf cfg.containerName)
    match r.2 with
    | some e => ⟨[cfg.containerName], [cfg.containerName], false, some e⟩
    | none =>
      let t := initLoop envf rest
      ⟨cfg.containerName :: t.initCalls, cfg.containerName :: t.connRegistry,
        t.healthRegistered, t.loggedError⟩

/-- `rabbit.Initialize` on its first invocation (the `sync.Once` makes
subsequent invocations no-ops), starting from the empty global
registries. -/
def Initialize (cfgs : List RabbitExpected) (envf : String → InitEnv) : InitTrace :=
  initLoop envf cfgs

/-- Whether an action is a `conn.NotifyClose` registration. -/
def isCloseReg : InitAction → Bool
  | .registerCloseNotify _ => true
  | _ => false

/-- Whether an initialization run ever registered a channel for
unexpected-closure notifications. -/
def closeRegistered (acts : List InitAction) : Bool :=
  acts.any isCloseReg

/-- Modelled from the spec: the behavior of the external amqp library
on an unexpected connection closure — the closure record is delivered
into a notification buffer if and only if that buffer was registered
with the connection via `NotifyClose`; with no registration the buffer
stays empty. -/
def bufferAfterClosure (acts : List InitAction) (msg : String) :
    List (Option String) :=
  if closeRegistered acts then [some msg] else []

/-! ## The channel ring (round-robin slot selection) -/

/-- The per-broker publish-channel ring: `len` slots, identified with
their positions `0 .. len - 1`, and the current cursor position.  This
is the arena-plus-index reading of Go's `container/ring` pointer held
in the global `rng` map. -/
structure RingSt where
  len : Nat
  idx : Nat
deriving DecidableEq, Repr

/-- The slot-selection step at the top of `Connection.Publish`, under
the pool-level `rngLock`: take the slot at the current position, then
advance the ring by one (`rng[c.name] = r.Next()`). -/
def selectSlot (st : RingSt) : Nat × RingSt :=
  (st.idx, ⟨st.len, (st.idx + 1) % st.len⟩)

/-- The slots selected by `n` consecutive `Publish` calls, in order. -/
def selectN (st : RingSt) : Nat → List Nat
  | 0 => []
  | n + 1 =>
    let r := selectSlot st
    r.1 :: selectN r.2 n

/-! ## The per-slot publish protocol, as a labelled transition system

Two concurrent `Publish` calls that were routed to the same slot are
modelled as two threads (`Bool`) running the slot section of
`Connection.Publish`: lock the slot, `wg.Add(1)`, send, block in
`wg.Wait()` until the slot's `publishConfirm` listener drains the
confirmation and releases the counter, then unlock (deferred). -/

/-- Program counter of one thread inside the slot section. -/
inductive SlotPC where
  | start
  | locked
  | incremented
  | pending
  | confirmed
  | done
deriving DecidableEq, Repr

/-- Shared state of one slot with two competing publisher threads:
each thread's program counter, the owner of the slot's mutex, and the
value of the slot's completion counter (`sync.WaitGroup`). -/
structure SlotState where
  pc : Bool → SlotPC
  lockOwner : Option Bool
  wgCount : Nat

/-- Events of the slot protocol: `cl.lock.Lock()` succeeding for a
thread, `cl.wg.Add(1)`, the send (`cl.chn.Publish`), the confirmation
being drained by `publishConfirm` (`cl.wg.Done()`) together with the
sender's `cl.wg.Wait()` returning, and the deferred
`cl.lock.Unlock()`. -/
inductive SlotEv where
  | acquire (t : Bool)
  | incr (t : Bool)
  | send (t : Bool)
  | confirm (t : Bool)
  | release (t : Bool)
deriving DecidableEq, Repr

/-- Update one thread's program counter. -/
def setPC (pc : Bool → SlotPC) (t : Bool) (v : SlotPC) : Bool → SlotPC :=
  fun u => if u = t then v else pc u

/-- One step of the slot protocol; `none` when the event is not
enabled in the given state.  A thread can acquire the free mutex only
from its entry point, can increment only after acquiring, can send
only after incrementing; its wait returns only after an outstanding
confirmation is drained; it releases only after its wait returned. -/
def slotStep (s : SlotState) : SlotEv → Option SlotState
  | .acquire t =>
    if s.pc t = .start ∧ s.lockOwner = none then
      some ⟨setPC s.pc t .locked, some t, s.wgCount⟩
    else none
  | .incr t =>
    if s.pc t = .locked then
      some ⟨setPC s.pc t .incremented, s.lockOwner, s.wgCount + 1⟩
    else none
  | .send t =>
    if s.pc t = .incremented then
      some ⟨setPC s.pc t .pending, s.lockOwner, s.wgCount⟩
    else none
  | .confirm t =>
    if s.pc t = .pending then
      some ⟨setPC s.pc t .confirmed, s.lockOwner, s.wgCount - 1⟩
    else none
  | .release t =>
    if s.pc t = .confirmed ∧ s.lockOwner = some t then
      some ⟨setPC s.pc t .done, none, s.wgCount⟩
    else none

/-- Run a sequence of slot events from a state. -/
def slotRun (s : SlotState) : List SlotEv → Option SlotState
  | [] => some s
  | e :: rest =>
    match slotStep s e with
    | some s1 => slotRun s1 rest
    | none => none

/-- The initial slot state: both threads at entry, mutex free,
completion counter zero. -/
def slotInit : SlotState := ⟨fun _ => .start, none, 0⟩

/-- A trace is valid when every event in it is enabled in turn from
the initial state. -/
def ValidSlotTrace (tr : List SlotEv) : Prop :=
  (slotRun slotInit tr).isSome = true

instance : DecidablePred ValidSlotTrace := fun tr =>
  inferInstanceAs (Decidable ((slotRun slotInit tr).isSome = true))

/-! ## Lemmas about the retry driver -/

/-- Core behavior of the retry loop under the fuel invariant: at least
one invocation is made; the sleeps performed are exactly
`min(attempt, 30)` seconds for each failed non-final attempt, in
order; an error is returned only at or past the deadline and is the
error of the last invocation; a nil return means the last invocation
succeeded. -/
theorem tryLoop_spec (fn : FnSchedule) (d : Nat) :
    ∀ fuel attempt elapsed, d < elapsed + fuel →
      1 ≤ fuel →
      (attempt + 1 ≤ (tryLoop fn d fuel attempt elapsed).invocations) ∧
      ((tryLoop fn d fuel attempt elapsed).sleeps =
        (List.range ((tryLoop fn d fuel attempt elapsed).invocations - 1 - attempt)).map
          (fun i => min (attempt + i + 1) 30)) ∧
      (∀ er, (tryLoop fn d fuel attempt elapsed).result = some er →
        d ≤ (tryLoop fn d fuel attempt elapsed).elapsed ∧
        tryStepErr fn ((tryLoop fn d fuel attempt elapsed).invocations - 1) = some er) ∧
      ((tryLoop fn d fuel attempt elapsed).result = none →
        tryStepErr fn ((tryLoop fn d fuel attempt elapsed).invocations - 1) = none) := by
  intro fuel
  induction fuel with
  | zero => intro attempt elapsed _ h1; omega
  | succ f ih =>
    intro attempt elapsed hinv _
    show (attempt + 1 ≤ (tryLoop fn d (f + 1) attempt elapsed).invocations) ∧ _
    rw [tryLoop]
    cases hstep : tryStepErr fn attempt with
    | none =>
      refine ⟨le_refl _, by simp, ?_, ?_⟩
      · intro er her; simp at her
      · intro _; simpa using hstep
    | some e =>
      by_cases hd : d ≤ elapsed + (fn attempt).2
      · simp only [hd, if_true]
        refine ⟨le_refl _, by simp, ?_, ?_⟩
        · intro er her
          simp only [Option.some.injEq] at her
          subst her
          refine ⟨trivial, by simpa using hstep⟩
        · intro hnone; simp at hnone
      · simp only [hd, if_false]
        cases f with
        | zero => omega
        | succ f1 =>
          have hinv1 : d < (elapsed + (fn attempt).2 + min (attempt + 1) 30) + (f1 + 1) := by
            have hb : 1 ≤ min (attempt + 1) 30 := by
              refine le_min ?_ ?_ <;> omega
            omega
          obtain ⟨ha, hs, hr, hn⟩ :=
            ih (attempt + 1) (elapsed + (fn attempt).2 + min (attempt + 1) 30) hinv1
              (by omega)
          refine ⟨by simpa using Nat.le_of_succ_le ha, ?_, ?_, ?_⟩
          · rw [hs]
            have hlen :
                (tryLoop fn d (f1 + 1) (attempt + 1)
                    (elapsed + (fn attempt).2 + min (attempt + 1) 30)).invocations - 1 - attempt =
                  ((tryLoop fn d (f1 + 1) (attempt + 1)
                    (elapsed + (fn attempt).2 + min (attempt + 1) 30)).invocations - 1 -
                      (attempt + 1)) + 1 := by
              omega
            rw [hlen, List.range_succ_eq_map, List.map_cons, List.map_map]
            refine congrArg₂ _ (by omega) ?_
            refine List.map_congr_left ?_
            intro i _
            simp only [Function.comp]
            refine congrArg₂ _ (by omega) rfl
          · intro er her; exact hr er her
          · intro hnone; exact hn hnone

/-- C7: `Try(fn, maxDuration)` repeatedly invokes `fn`; it returns nil
immediately on the first success (in general, a nil return means the
last invocation succeeded, and no sleep follows it); after a failed
attempt it sleeps `min(attempt × 1s, 30s)` before retrying; once
elapsed time since the first attempt is ≥ `maxDuration` it returns the
last error from `fn`; and `Try(fn, 3s)` with an
always-(instantly-)failing `fn` returns that error at 3s elapsed,
having invoked `fn` three times (at least twice). -/
theorem c7_try_backoff_deadline (fn : FnSchedule) (d : Nat) :
    ((fn 0).1 = .ok → Try fn d = ⟨none, 1, [], (fn 0).2⟩)
    ∧ ((Try fn d).sleeps =
        (List.range ((Try fn d).invocations - 1)).map (fun i => min (i + 1) 30))
    ∧ (∀ er, (Try fn d).result = some er →
        d ≤ (Try fn d).elapsed ∧
        tryStepErr fn ((Try fn d).invocations - 1) = some er)
    ∧ ((Try fn d).result = none →
        tryStepErr fn ((Try fn d).invocations - 1) = none)
    ∧ (Try (fun _ => (.err (.mk "dial refused"), 0)) 3 =
        ⟨some (.mk "dial refused"), 3, [1, 2], 3⟩) := by
  obtain ⟨ha, hs, hr, hn⟩ := tryLoop_spec fn d (d + 1) 0 0 (by omega) (by omega)
  refine ⟨?_, ?_, ?_, hn, by rfl⟩
  · intro h
    have hstep : tryStepErr fn 0 = none := by simp [tryStepErr, h]
    simp [Try, tryLoop, hstep]
  · simpa using hs
  · exact hr

/-- Witness for `c7_try_backoff_deadline` at concrete inputs: a
function succeeding at once (duration 2s) makes `Try` return nil after
one invocation with no sleep, and an always-failing function makes
`Try _ 3` return its error at or past the 3s deadline, the error being
that of the last invocation. -/
theorem c7_try_backoff_deadline_witness :
    Try (fun _ => (FnOutcome.ok, 2)) 5 = ⟨none, 1, [], 2⟩
    ∧ (3 ≤ (Try (fun _ => (FnOutcome.err (Err.mk "dial refused"), 0)) 3).elapsed
        ∧ tryStepErr (fun _ => (FnOutcome.err (Err.mk "dial refused"), 0))
            ((Try (fun _ => (FnOutcome.err (Err.mk "dial refused"), 0)) 3).invocations - 1) =
          some (Err.mk "dial refused")) :=
  ⟨(c7_try_backoff_deadline (fun _ => (FnOutcome.ok, 2)) 5).1 rfl,
   (c7_try_backoff_deadline (fun _ => (FnOutcome.err (Err.mk "dial refused"), 0)) 3).2.2.1
      (Err.mk "dial refused") rfl⟩

/-- C9: any panic raised by the function wrapped by `Try` is recovered
inside `Try` and converted to an ordinary error value — an error panic
value as-is, a string as a `PanicError`, anything else as an "unknown
panic" `PanicError` — and no panic escapes `Try`: with an
always-panicking function, `Try` still returns an ordinary error,
namely the converted last panic value. -/
theorem c9_panic_contained (fn : FnSchedule) (v : PanicVal) (d k : Nat) :
    ((fn k).1 = .panic v → tryStepErr fn k = some (recoverToError v))
    ∧ (∀ e, recoverToError (.errVal e) = e)
    ∧ (∀ s, recoverToError (.strVal s) = .panicError s)
    ∧ (recoverToError .otherVal = .panicError "unknown panic")
    ∧ ((∀ j, (fn j).1 = .panic v) → (Try fn d).result = some (recoverToError v)) := by
  refine ⟨?_, fun _ => rfl, fun _ => rfl, rfl, ?_⟩
  · intro h; simp [tryStepErr, h]
  · intro hall
    obtain ⟨ha, hs, hr, hn⟩ := tryLoop_spec fn d (d + 1) 0 0 (by omega) (by omega)
    cases hres : (Try fn d).result with
    | none =>
      have := hn hres
      rw [tryStepErr, hall] at this
      simp at this
    | some er =>
      have h2 := (hr er hres).2
      rw [tryStepErr, hall] at h2
      simp only [Option.some.injEq] at h2
      rw [h2]

/-- Witness for `c9_panic_contained`: a function that always panics
with the string "boom" never lets the panic escape — `Try` returns the
converted `PanicError`. -/
theorem c9_panic_contained_witness :
    tryStepErr (fun _ => (FnOutcome.panic (PanicVal.strVal "boom"), 0)) 4 =
      some (recoverToError (PanicVal.strVal "boom"))
    ∧ (Try (fun _ => (FnOutcome.panic (PanicVal.strVal "boom"), 0)) 2).result =
      some (recoverToError (PanicVal.strVal "boom")) :=
  ⟨(c9_panic_contained (fun _ => (FnOutcome.panic (PanicVal.strVal "boom"), 0))
      (PanicVal.strVal "boom") 2 4).1 rfl,
   (c9_panic_contained (fun _ => (FnOutcome.panic (PanicVal.strVal "boom"), 0))
      (PanicVal.strVal "boom") 2 4).2.2.2.2 (fun _ => rfl)⟩

/-- C6: in `Consume`'s receive loop every inbound message is passed to
the handler; on nil the message is acknowledged (`Ack(false)`), on
error it is negative-acknowledged with requeue (`Nack(false, true)`)
and the loop continues with the next message; and the loop's returned
value is the same whatever the handler returns — a handler error is
never propagated to the caller. -/
theorem c6_consume_handler_contained (handler : String → Option Err)
    (evs : List ConsumeEv) :
    (consumeLoop handler evs).1 = consumeActsSpec handler evs
    ∧ (consumeLoop handler evs).2 = (consumeLoop (fun _ => none) evs).2 := by
  induction evs with
  | nil => exact ⟨rfl, rfl⟩
  | cons e rest ih =>
    cases e with
    | cancelled => exact ⟨rfl, rfl⟩
    | chanClosed => exact ⟨rfl, rfl⟩
    | msg b =>
      constructor
      · simp only [consumeLoop, consumeActsSpec, processedBodies, List.map_cons]
        cases hb : handler b <;>
          simp [hb, ih.1, consumeActsSpec]
      · simp only [consumeLoop]
        exact ih.2

/-- C3: when the send inside `Publish` fails before the confirmation
wait, `Publish` returns that error, the completion counter is
explicitly released (one `wg.Add(1)` matched by one `wg.Done()`, net
zero), and no confirmation wait is performed on that path. -/
theorem c3_send_error_releases_counter (env : PubEnv) (e : Err)
    (hclosed : env.closed = false) (hchan : env.chanErr = none)
    (hdecl : env.declErr = none) (hsend : env.sendErr = some e) :
    (Publish env).2 = some e
    ∧ (Publish env).1.count PubAction.counterIncr = 1
    ∧ (Publish env).1.count PubAction.counterDecr = 1
    ∧ PubAction.waitConfirm ∉ (Publish env).1 := by
  rcases env with ⟨c, ce, de, se⟩
  simp only at hclosed hchan hdecl hsend
  subst hclosed hchan hdecl hsend
  refine ⟨by simp [Publish], ?_, ?_, ?_⟩ <;> simp [Publish]

/-- Witness for `c3_send_error_releases_counter` at the concrete
environment where only the send fails. -/
theorem c3_send_error_releases_counter_witness :
    (Publish ⟨false, none, none, some (Err.mk "broken pipe")⟩).2 =
      some (Err.mk "broken pipe")
    ∧ (Publish ⟨false, none, none, some (Err.mk "broken pipe")⟩).1.count
        PubAction.counterIncr = 1
    ∧ (Publish ⟨false, none, none, some (Err.mk "broken pipe")⟩).1.count
        PubAction.counterDecr = 1
    ∧ PubAction.waitConfirm ∉ (Publish ⟨false, none, none, some (Err.mk "broken pipe")⟩).1 :=
  c3_send_error_releases_counter ⟨false, none, none, some (Err.mk "broken pipe")⟩
    (Err.mk "broken pipe") rfl rfl rfl rfl

/-- C8, counterexample: on the successful-publish path the queue
declaration does NOT precede the ring advance and the slot lock — the
code advances the ring and locks the slot first. -/
theorem c8_counterexample_declare_not_first :
    declareBeforeRingAndLock ⟨false, none, none, none⟩ = false := by
  decide

/-- C8, amended: every `Publish` call advances the ring first and
acquires the slot lock second; whenever the queue declaration is
reached it is performed third, on a transient channel opened for this
call (and closed again before return), with durable=true,
auto-delete=false, exclusive=false. -/
theorem c8_amended_order (env : PubEnv) :
    (Publish env).1.take 2 = [PubAction.ringAdvance, PubAction.slotLock]
    ∧ ((Publish env).1.any isDeclare = true →
        (Publish env).1.take 4 =
          [PubAction.ringAdvance, PubAction.slotLock, PubAction.openChannel,
            PubAction.declareQueue true false false]
        ∧ PubAction.closeChannel ∈ (Publish env).1) := by
  rcases env with ⟨c, ce, de, se⟩
  cases c <;> cases ce <;> cases de <;> cases se <;>
    simp [Publish, isDeclare]

/-- Witness for `c8_amended_order` on the successful-publish path. -/
theorem c8_amended_order_witness :
    (Publish ⟨false, none, none, none⟩).1.take 4 =
      [PubAction.ringAdvance, PubAction.slotLock, PubAction.openChannel,
        PubAction.declareQueue true false false]
    ∧ PubAction.closeChannel ∈ (Publish ⟨false, none, none, none⟩).1 :=
  (c8_amended_order ⟨false, none, none, none⟩).2 (by decide)

/-- Closed form of consecutive slot selections: starting from cursor
`i < L`, the j-th selected slot is `(i + j) % L`. -/
theorem selectN_closed_form (L : Nat) :
    ∀ n i, i < L →
      selectN ⟨L, i⟩ n = (List.range n).map (fun j => (i + j) % L) := by
  intro n
  induction n with
  | zero => intro i _; rfl
  | succ n ih =>
    intro i hi
    have hL : 0 < L := Nat.lt_of_le_of_lt (Nat.zero_le _) hi
    have hstep : selectN ⟨L, i⟩ (n + 1) = i :: selectN ⟨L, (i + 1) % L⟩ n := rfl
    rw [hstep, ih ((i + 1) % L) (Nat.mod_lt _ hL), List.range_succ_eq_map,
      List.map_cons, List.map_map]
    refine congrArg₂ _ (by rw [Nat.add_zero, Nat.mod_eq_of_lt hi]) ?_
    refine List.map_congr_left ?_
    intro j _
    simp only [Function.comp]
    rw [Nat.mod_add_mod]
    have : i + 1 + j = i + Nat.succ j := by omega
    rw [this]

/-- C5: with a publish-channel ring of size K, K consecutive `Publish`
calls select K pairwise-distinct slots (covering every slot) before
any slot repeats, and each call advances the ring cursor by exactly
one position. -/
theorem c5_round_robin_coverage (L i : Nat) (hi : i < L) :
    (selectN ⟨L, i⟩ L).Nodup
    ∧ (selectN ⟨L, i⟩ L).length = L
    ∧ (∀ x ∈ selectN ⟨L, i⟩ L, x < L)
    ∧ (∀ st : RingSt, (selectSlot st).1 = st.idx ∧
        (selectSlot st).2.idx = (st.idx + 1) % st.len) := by
  have hL : 0 < L := Nat.lt_of_le_of_lt (Nat.zero_le _) hi
  have hclosed := selectN_closed_form L L i hi
  refine ⟨?_, ?_, ?_, fun st => ⟨rfl, rfl⟩⟩
  · rw [hclosed]
    refine List.Nodup.map_on ?_ (List.nodup_range L)
    intro x hx y hy hxy
    rw [List.mem_range] at hx hy
    have hmod : (i + x) % L = (i + y) % L := hxy
    have hcan : x % L = y % L := Nat.ModEq.add_left_cancel' i hmod
    rw [Nat.mod_eq_of_lt hx, Nat.mod_eq_of_lt hy] at hcan
    exact hcan
  · rw [hclosed]; simp
  · rw [hclosed]
    intro x hx
    rw [List.mem_map] at hx
    obtain ⟨j, _, hj⟩ := hx
    rw [← hj]
    exact Nat.mod_lt _ hL

/-- Witness for `c5_round_robin_coverage`: a ring of 3 slots starting
at cursor 1 selects slots 1, 2, 0 — all distinct. -/
theorem c5_round_robin_coverage_witness :
    (selectN ⟨3, 1⟩ 3).Nodup ∧ (selectN ⟨3, 1⟩ 3).length = 3 :=
  ⟨(c5_round_robin_coverage 3 1 (by decide)).1,
   (c5_round_robin_coverage 3 1 (by decide)).2.1⟩

/-- The connection registry after `Initialize` holds exactly the names
of the brokers for which `initializeConnection` was invoked — the
insertion happens unconditionally, even when the broker's
initialization subsequently fails. -/
theorem initLoop_registry_eq_calls (envf : String → InitEnv) :
    ∀ cfgs : List RabbitExpected,
      (initLoop envf cfgs).connRegistry = (initLoop envf cfgs).initCalls := by
  intro cfgs
  induction cfgs with
  | nil => rfl
  | cons cfg rest ih =>
    simp only [initLoop]
    cases (initializeConnection cfg (envf cfg.containerName)).2 with
    | some e => rfl
    | none => simp only [ih]

/-- C10: `initializeConnection` inserts the broker's name into the
global connection registry as its very first action, before any dial;
consequently `GetConnection(name)` succeeds exactly for the names
processed by `Initialize` — a broker whose dial failed is still
returned as a handle, and "not found" is reported only for names never
processed. -/
theorem c10_registry_inserted_before_dial (cfg : RabbitExpected) (env : InitEnv)
    (cfgs : List RabbitExpected) (envf : String → InitEnv) (name : String) :
    (initializeConnection cfg env).1.head? =
      some (InitAction.insertConnRegistry cfg.containerName)
    ∧ (GetConnection name (Initialize cfgs envf).connRegistry =
        Except.ok ⟨name⟩ ↔ name ∈ (Initialize cfgs envf).initCalls) := by
  constructor
  · rfl
  · rw [Initialize, initLoop_registry_eq_calls]
    by_cases h : name ∈ (initLoop envf cfgs).initCalls
    · simp [GetConnection, h]
    · simp [GetConnection, h]

/-- C1, counterexample: with one registered broker whose dial always
fails instantly, `Initialize` invokes `initializeConnection` exactly
once and stops, whereas the claimed `Try`-wrapped behavior with a 30s
window would invoke the failing sequence nine times; the failure is
only logged, and the health checker is not registered. -/
theorem c1_counterexample_no_retry :
    (Initialize [⟨"main", "localhost", 5672, "guest", "guest", "/"⟩]
        (fun _ => ⟨1, 1, 100, fun _ => some (.mk "dial refused"), none, none,
          fun _ => none, fun _ => none⟩)).initCalls.length = 1
    ∧ (Initialize [⟨"main", "localhost", 5672, "guest", "guest", "/"⟩]
        (fun _ => ⟨1, 1, 100, fun _ => some (.mk "dial refused"), none, none,
          fun _ => none, fun _ => none⟩)).loggedError = some (.mk "dial refused")
    ∧ (Try (fun _ => (FnOutcome.err (.mk "dial refused"), 0)) 30).invocations = 9
    ∧ (Initialize [⟨"main", "localhost", 5672, "guest", "guest", "/"⟩]
        (fun _ => ⟨1, 1, 100, fun _ => some (.mk "dial refused"), none, none,
          fun _ => none, fun _ => none⟩)).initCalls.length ≠
      (Try (fun _ => (FnOutcome.err (.mk "dial refused"), 0)) 30).invocations := by
  exact ⟨rfl, rfl, rfl, by decide⟩

/-- C1, amended: `Initialize` runs the per-broker
dial/declare/pool-build sequences directly, with no retry wrapper —
each registered broker is attempted at most once, in registration
order (the attempted names form a sublist of the registered names),
the loop stops at the first failure, and the health checker is
registered exactly when no broker failed; the failure itself is only
logged, never returned (`Initialize` has no return value). -/
theorem c1_amended_no_retrier (cfgs : List RabbitExpected)
    (envf : String → InitEnv) :
    (Initialize cfgs envf).initCalls.Sublist
      (cfgs.map RabbitExpected.containerName)
    ∧ ((Initialize cfgs envf).healthRegistered = true ↔
        (Initialize cfgs envf).loggedError = none) := by
  induction cfgs with
  | nil => exact ⟨List.Sublist.refl _, by simp [Initialize, initLoop]⟩
  | cons cfg rest ih =>
    rw [Initialize] at ih ⊢
    simp only [initLoop, List.map_cons]
    cases (initializeConnection cfg (envf cfg.containerName)).2 with
    | some e =>
      refine ⟨List.Sublist.cons₂ _ (List.nil_sublist _), by simp⟩
    | none =>
      refine ⟨List.Sublist.cons₂ _ ih.1, by simpa using ih.2⟩

/-- The dial loop emits only dial actions. -/
theorem dialSeq_no_closeReg (f : Nat → Option Err) :
    ∀ js, (dialSeq f js).1.any isCloseReg = false := by
  intro js
  induction js with
  | nil => rfl
  | cons j rest ih =>
    simp only [dialSeq]
    cases f j with
    | some e => rfl
    | none => simpa [isCloseReg] using ih

/-- The publish-channel loop never registers a closure notification. -/
theorem pubChanSeq_no_closeReg (env : InitEnv) :
    ∀ js, (pubChanSeq env js).1.any isCloseReg = false := by
  intro js
  induction js with
  | nil => rfl
  | cons j rest ih =>
    simp only [pubChanSeq]
    cases env.pubChanErr j with
    | some e => rfl
    | none =>
      cases env.confirmModeErr j with
      | some e => rfl
      | none => simpa [isCloseReg] using ih

/-- `initializeConnection` never registers any channel for
unexpected-closure notifications: the source contains no
`conn.NotifyClose` call. -/
theorem initializeConnection_no_closeReg (cfg : RabbitExpected) (env : InitEnv) :
    closeRegistered (initializeConnection cfg env).1 = false := by
  dsimp only [initializeConnection]
  cases hd : (dialSeq env.dialErr
      (List.range (if env.connectionNum < 1 then 1 else env.connectionNum))).2 with
  | some e =>
    simp [closeRegistered, isCloseReg, dialSeq_no_closeReg]
  | none =>
    cases env.chanErr with
    | some e =>
      simp [closeRegistered, isCloseReg, dialSeq_no_closeReg]
    | none =>
      cases env.exchErr with
      | some e =>
        simp [closeRegistered, isCloseReg, dialSeq_no_closeReg]
      | none =>
        simp [closeRegistered, isCloseReg, dialSeq_no_closeReg,
          pubChanSeq_no_closeReg]

/-- C4 (the code falsifies the claim's consequence): `Health` is a
non-blocking read that would report a non-nil closure record from the
shared buffer — but no connection initialized by
`initializeConnection` is ever wired to that buffer, so after an
unexpected connection closure the buffer is still empty and `Health`
returns nil, not an error. -/
theorem c4_health_cannot_observe_closure (cfg : RabbitExpected) (env : InitEnv)
    (msg v : String) (rest : List (Option String)) :
    Health [] = (none, [])
    ∧ (Health (some v :: rest)).1 =
        some (.mk ("RabbitMQ error happen : " ++ v))
    ∧ closeRegistered (initializeConnection cfg env).1 = false
    ∧ (Health (bufferAfterClosure (initializeConnection cfg env).1 msg)).1 = none := by
  refine ⟨rfl, rfl, initializeConnection_no_closeReg cfg env, ?_⟩
  rw [bufferAfterClosure, initializeConnection_no_closeReg cfg env]
  rfl

/-! ## Lemmas about the slot protocol -/

theorem setPC_same (pc : Bool → SlotPC) (t : Bool) (v : SlotPC) :
    setPC pc t v t = v := by
  simp [setPC]

theorem setPC_other (pc : Bool → SlotPC) (t : Bool) (v : SlotPC) (u : Bool)
    (h : u ≠ t) : setPC pc t v u = pc u := by
  simp [setPC, h]

/-- Every thread strictly inside the slot section (past the lock
acquisition, before the unlock) owns the slot's mutex. -/
def SlotInv (s : SlotState) : Prop :=
  ∀ t, s.pc t ≠ .start → s.pc t ≠ .done → s.lockOwner = some t

theorem slotStep_acquire_inv {s s' : SlotState} {t : Bool}
    (h : slotStep s (.acquire t) = some s') :
    s.pc t = .start ∧ s.lockOwner = none
    ∧ s' = ⟨setPC s.pc t .locked, some t, s.wgCount⟩ := by
  simp only [slotStep] at h
  by_cases hc : s.pc t = .start ∧ s.lockOwner = none
  · rw [if_pos hc] at h
    simp only [Option.some.injEq] at h
    exact ⟨hc.1, hc.2, h.symm⟩
  · rw [if_neg hc] at h
    exact absurd h (by simp)

theorem slotStep_incr_inv {s s' : SlotState} {t : Bool}
    (h : slotStep s (.incr t) = some s') :
    s.pc t = .locked
    ∧ s' = ⟨setPC s.pc t .incremented, s.lockOwner, s.wgCount + 1⟩ := by
  simp only [slotStep] at h
  by_cases hc : s.pc t = .locked
  · rw [if_pos hc] at h
    simp only [Option.some.injEq] at h
    exact ⟨hc, h.symm⟩
  · rw [if_neg hc] at h
    exact absurd h (by simp)

theorem slotStep_send_inv {s s' : SlotState} {t : Bool}
    (h : slotStep s (.send t) = some s') :
    s.pc t = .incremented
    ∧ s' = ⟨setPC s.pc t .pending, s.lockOwner, s.wgCount⟩ := by
  simp only [slotStep] at h
  by_cases hc : s.pc t = .incremented
  · rw [if_pos hc] at h
    simp only [Option.some.injEq] at h
    exact ⟨hc, h.symm⟩
  · rw [if_neg hc] at h
    exact absurd h (by simp)

theorem slotStep_confirm_inv {s s' : SlotState} {t : Bool}
    (h : slotStep s (.confirm t) = some s') :
    s.pc t = .pending
    ∧ s' = ⟨setPC s.pc t .confirmed, s.lockOwner, s.wgCount - 1⟩ := by
  simp only [slotStep] at h
  by_cases hc : s.pc t = .pending
  · rw [if_pos hc] at h
    simp only [Option.some.injEq] at h
    exact ⟨hc, h.symm⟩
  · rw [if_neg hc] at h
    exact absurd h (by simp)

theorem slotStep_release_inv {s s' : SlotState} {t : Bool}
    (h : slotStep s (.release t) = some s') :
    s.pc t = .confirmed ∧ s.lockOwner = some t
    ∧ s' = ⟨setPC s.pc t .done, none, s.wgCount⟩ := by
  simp only [slotStep] at h
  by_cases hc : s.pc t = .confirmed ∧ s.lockOwner = some t
  · rw [if_pos hc] at h
    simp only [Option.some.injEq] at h
    exact ⟨hc.1, hc.2, h.symm⟩
  · rw [if_neg hc] at h
    exact absurd h (by simp)

/-- The mutual-exclusion invariant is preserved by every enabled
step. -/
theorem slotStep_preserves_inv {s s' : SlotState} {e : SlotEv}
    (hinv : SlotInv s) (h : slotStep s e = some s') : SlotInv s' := by
  cases e with
  | acquire t =>
    obtain ⟨hpc, hown, hs⟩ := slotStep_acquire_inv h
    subst hs
    intro u h1 h2
    dsimp only at h1 h2 ⊢
    by_cases hu : u = t
    · subst hu; rfl
    · rw [setPC_other _ _ _ _ hu] at h1 h2
      have := hinv u h1 h2
      rw [hown] at this
      exact absurd this (by simp)
  | incr t =>
    obtain ⟨hpc, hs⟩ := slotStep_incr_inv h
    subst hs
    intro u h1 h2
    dsimp only at h1 h2 ⊢
    by_cases hu : u = t
    · subst hu
      exact hinv u (by rw [hpc]; simp) (by rw [hpc]; simp)
    · rw [setPC_other _ _ _ _ hu] at h1 h2
      exact hinv u h1 h2
  | send t =>
    obtain ⟨hpc, hs⟩ := slotStep_send_inv h
    subst hs
    intro u h1 h2
    dsimp only at h1 h2 ⊢
    by_cases hu : u = t
    · subst hu
      exact hinv u (by rw [hpc]; simp) (by rw [hpc]; simp)
    · rw [setPC_other _ _ _ _ hu] at h1 h2
      exact hinv u h1 h2
  | confirm t =>
    obtain ⟨hpc, hs⟩ := slotStep_confirm_inv h
    subst hs
    intro u h1 h2
    dsimp only at h1 h2 ⊢
    by_cases hu : u = t
    · subst hu
      exact hinv u (by rw [hpc]; simp) (by rw [hpc]; simp)
    · rw [setPC_other _ _ _ _ hu] at h1 h2
      exact hinv u h1 h2
  | release t =>
    obtain ⟨hpc, hown, hs⟩ := slotStep_release_inv h
    subst hs
    intro u h1 h2
    dsimp only at h1 h2 ⊢
    by_cases hu : u = t
    · subst hu
      rw [setPC_same] at h2
      exact absurd rfl h2
    · rw [setPC_other _ _ _ _ hu] at h1 h2
      have := hinv u h1 h2
      rw [hown] at this
      simp only [Option.some.injEq] at this
      exact absurd this.symm hu

/-- The invariant holds along every valid run. -/
theorem slotRun_preserves_inv :
    ∀ (l : List SlotEv) (s s' : SlotState), SlotInv s →
      slotRun s l = some s' → SlotInv s' := by
  intro l
  induction l with
  | nil =>
    intro s s' hinv h
    simp only [slotRun, Option.some.injEq] at h
    rw [← h]; exact hinv
  | cons e rest ih =>
    intro s s' hinv h
    simp only [slotRun] at h
    cases hstep : slotStep s e with
    | none => rw [hstep] at h; exact absurd h (by simp)
    | some s1 =>
      rw [hstep] at h
      exact ih s1 s' (slotStep_preserves_inv hinv hstep) h

/-- The initial state satisfies the invariant. -/
theorem slotInv_init : SlotInv slotInit := by
  intro t h1 _
  exact absurd rfl h1

/-- Decomposition of a run over an appended trace. -/
theorem slotRun_append :
    ∀ (l1 l2 : List SlotEv) (s s'' : SlotState),
      slotRun s (l1 ++ l2) = some s'' →
      ∃ s', slotRun s l1 = some s' ∧ slotRun s' l2 = some s'' := by
  intro l1
  induction l1 with
  | nil =>
    intro l2 s s'' h
    exact ⟨s, rfl, h⟩
  | cons e rest ih =>
    intro l2 s s'' h
    simp only [List.cons_append, slotRun] at h ⊢
    cases hstep : slotStep s e with
    | none => rw [hstep] at h; exact absurd h (by simp)
    | some s1 =>
      rw [hstep] at h
      exact ih l2 s1 s'' h

/-- While a thread is pending inside the slot (sent, waiting for its
confirmation) and owns the lock, the only enabled event of the whole
system is that thread's confirmation: the other thread is blocked on
the mutex and the pending thread is blocked in `wg.Wait()`. -/
theorem slotStep_pending_only_confirm {s s' : SlotState} {a : Bool} {e : SlotEv}
    (hinv : SlotInv s) (hpend : s.pc a = .pending)
    (h : slotStep s e = some s') : e = .confirm a := by
  have howna : s.lockOwner = some a :=
    hinv a (by rw [hpend]; simp) (by rw [hpend]; simp)
  cases e with
  | acquire t =>
    obtain ⟨_, hown, _⟩ := slotStep_acquire_inv h
    rw [howna] at hown
    exact absurd hown (by simp)
  | incr t =>
    obtain ⟨hpc, _⟩ := slotStep_incr_inv h
    by_cases ht : t = a
    · subst ht; rw [hpend] at hpc; exact absurd hpc (by simp)
    · have hownt : s.lockOwner = some t :=
        hinv t (by rw [hpc]; simp) (by rw [hpc]; simp)
      rw [howna] at hownt
      simp only [Option.some.injEq] at hownt
      exact absurd hownt.symm ht
  | send t =>
    obtain ⟨hpc, _⟩ := slotStep_send_inv h
    by_cases ht : t = a
    · subst ht; rw [hpend] at hpc; exact absurd hpc (by simp)
    · have hownt : s.lockOwner = some t :=
        hinv t (by rw [hpc]; simp) (by rw [hpc]; simp)
      rw [howna] at hownt
      simp only [Option.some.injEq] at hownt
      exact absurd hownt.symm ht
  | confirm t =>
    obtain ⟨hpc, _⟩ := slotStep_confirm_inv h
    by_cases ht : t = a
    · subst ht; rfl
    · have hownt : s.lockOwner = some t :=
        hinv t (by rw [hpc]; simp) (by rw [hpc]; simp)
      rw [howna] at hownt
      simp only [Option.some.injEq] at hownt
      exact absurd hownt.symm ht
  | release t =>
    obtain ⟨hpc, hown, _⟩ := slotStep_release_inv h
    rw [howna] at hown
    simp only [Option.some.injEq] at hown
    rw [← hown] at hpc
    rw [hpend] at hpc
    exact absurd hpc (by simp)

/-- While a thread is pending, no trace avoiding its confirmation can
make progress at all. -/
theorem slotRun_pending_frozen {a : Bool} :
    ∀ (l : List SlotEv) (s s' : SlotState), SlotInv s →
      s.pc a = .pending → slotRun s l = some s' →
      SlotEv.confirm a ∉ l → l = [] := by
  intro l
  cases l with
  | nil => intro s s' _ _ _ _; rfl
  | cons e rest =>
    intro s s' hinv hpend h hmem
    simp only [slotRun] at h
    cases hstep : slotStep s e with
    | none => rw [hstep] at h; exact absurd h (by simp)
    | some s1 =>
      have he := slotStep_pending_only_confirm hinv hpend hstep
      subst he
      exact absurd (List.mem_cons_self _ _) hmem

/-- C2: per slot, at most one publish is in flight at a time.  In every
valid trace of two concurrent `Publish` calls on the same slot, the
second send can only occur after the first send's confirmation has been
observed; and in every reachable state, a thread that is between the
counter increment and the end of the confirmation wait holds the
slot's exclusive lock. -/
theorem c2_at_most_one_inflight_per_slot (l1 l2 l3 : List SlotEv) (a b : Bool)
    (hab : a ≠ b)
    (hval : ValidSlotTrace (l1 ++ SlotEv.send a :: (l2 ++ SlotEv.send b :: l3))) :
    SlotEv.confirm a ∈ l2
    ∧ (∀ (tr : List SlotEv) (s : SlotState), slotRun slotInit tr = some s →
        ∀ t, (s.pc t = .incremented ∨ s.pc t = .pending ∨ s.pc t = .confirmed) →
          s.lockOwner = some t) := by
  constructor
  · rw [ValidSlotTrace, Option.isSome_iff_exists] at hval
    obtain ⟨sfin, hrun⟩ := hval
    obtain ⟨s0, hrun0, hrun1⟩ := slotRun_append l1 _ slotInit sfin hrun
    have hinv0 : SlotInv s0 := slotRun_preserves_inv l1 slotInit s0 slotInv_init hrun0
    simp only [slotRun] at hrun1
    cases hsend : slotStep s0 (.send a) with
    | none => rw [hsend] at hrun1; exact absurd hrun1 (by simp)
    | some s1 =>
      rw [hsend] at hrun1
      obtain ⟨hpc0, hs1⟩ := slotStep_send_inv hsend
      have hinv1 : SlotInv s1 := slotStep_preserves_inv hinv0 hsend
      have hpend1 : s1.pc a = .pending := by
        rw [hs1]; exact setPC_same _ _ _
      have hown1 : s1.lockOwner = some a := by
        rw [hs1]
        exact hinv0 a (by rw [hpc0]; simp) (by rw [hpc0]; simp)
      obtain ⟨s2, hrun2, hrun3⟩ := slotRun_append l2 _ s1 sfin hrun1
      by_cases hmem : SlotEv.confirm a ∈ l2
      · exact hmem
      · have hl2 : l2 = [] :=
          slotRun_pending_frozen l2 s1 s2 hinv1 hpend1 hrun2 hmem
        subst hl2
        simp only [slotRun, Option.some.injEq] at hrun2
        subst hrun2
        simp only [slotRun] at hrun3
        cases hsendb : slotStep s1 (.send b) with
        | none => rw [hsendb] at hrun3; exact absurd hrun3 (by simp)
        | some s3 =>
          obtain ⟨hpcb, _⟩ := slotStep_send_inv hsendb
          have hownb : s1.lockOwner = some b :=
            hinv1 b (by rw [hpcb]; simp) (by rw [hpcb]; simp)
          rw [hown1] at hownb
          simp only [Option.some.injEq] at hownb
          exact absurd hownb hab
  · intro tr s hrun t hmid
    have hinv : SlotInv s := slotRun_preserves_inv tr slotInit s slotInv_init hrun
    rcases hmid with h | h | h <;>
      exact hinv t (by rw [h]; simp) (by rw [h]; simp)

/-- Witness for `c2_at_most_one_inflight_per_slot` on a concrete valid
interleaving: thread `true` acquires, increments and sends; only after
its confirmation and release can thread `false` acquire, increment and
send — and indeed `confirm true` occurs between the two sends. -/
theorem c2_at_most_one_inflight_per_slot_witness :
    SlotEv.confirm true ∈
      [SlotEv.confirm true, SlotEv.release true, SlotEv.acquire false,
        SlotEv.incr false] :=
  (c2_at_most_one_inflight_per_slot
    [SlotEv.acquire true, SlotEv.incr true]
    [SlotEv.confirm true, SlotEv.release true, SlotEv.acquire false,
      SlotEv.incr false]
    [] true false (by decide) (by decide)).1
